import Mathlib

/-!
Shallow embedding of the mcp-toolkit optimization layer
(packages/toolkit/src/profiler.ts and packages/toolkit/src/cacher.ts):
the call batcher (McpCallBatcher), the connection pool (McpConnectionPool)
and the definition cacher (ToolDefinitionCacher).

Each JS class is embedded as a state structure plus executable functions,
one per synchronous region of the corresponding method: a JS `async` method
runs synchronously between `await` suspension points, so each such region
becomes one atomic Lean transition.  Payloads (tool call results, cached
definition lists) are abstracted to `Nat`, error values to `String`.
-/

namespace McpToolkit

/-! ## Call batcher (McpCallBatcher, profiler.ts) -/

/-- A call in the batch queue (interface QueuedCall): `idx` identifies the
caller's handle (resolve/reject pair); `timestamp` is the enqueue time. -/
structure BCall where
  idx : Nat
  priority : Int
  timestamp : Nat
deriving Repr, DecidableEq

/-- Batcher options (BatcherOptions) with the constructor's defaults. -/
structure BatcherConfig where
  maxBatchSize : Nat := 10
  executeOnFull : Bool := true
deriving Repr

/-- The comparator of McpCallBatcher.call as a total Boolean order:
`a` sorts no later than `b` iff a has higher priority, or equal priority
and an earlier-or-equal timestamp (priority desc, then timestamp asc). -/
def callLe (a b : BCall) : Bool :=
  decide (b.priority < a.priority) ||
    (decide (a.priority = b.priority) && decide (a.timestamp ≤ b.timestamp))

/-- Insert `c` after every element that sorts no later than it; on ties the
incumbent stays first, which is exactly the stability guarantee of
Array.prototype.sort used by the source. -/
def insertCall (c : BCall) : List BCall → List BCall
  | [] => [c]
  | x :: xs => if callLe x c then x :: insertCall c xs else c :: x :: xs

/-- Stable sort of the queue by (priority desc, timestamp asc), the effect of
`this.queue.sort(...)` in McpCallBatcher.call. -/
def sortQueue (l : List BCall) : List BCall :=
  l.foldl (fun acc c => insertCall c acc) []

/-- Batcher state: `executing = some batch` models `isExecuting = true` with
`batch` spliced out and awaiting the executor; `dispatched` logs every batch
handed to the executor, in order. -/
structure BatcherState where
  queue : List BCall
  timerArmed : Bool
  executing : Option (List BCall)
  dispatched : List (List BCall)
deriving Repr, DecidableEq

def BatcherState.empty : BatcherState := ⟨[], false, none, []⟩

/-- scheduleFlush(): arms the flush timer unless one is armed or a batch is
executing. -/
def scheduleFlush (s : BatcherState) : BatcherState :=
  if s.timerArmed || s.executing.isSome then s else { s with timerArmed := true }

/-- flush() up to its `await executor(calls)`: clears the timer; if the queue
is empty or a batch is already executing it returns; otherwise it splices up
to maxBatchSize calls off the front and invokes the executor with them. -/
def flushStep (cfg : BatcherConfig) (s : BatcherState) : BatcherState :=
  let s1 := { s with timerArmed := false }
  if s1.queue.isEmpty || s1.executing.isSome then s1
  else
    let batch := s1.queue.take cfg.maxBatchSize
    { s1 with queue := s1.queue.drop cfg.maxBatchSize
              executing := some batch
              dispatched := s1.dispatched ++ [batch] }

/-- call(name, args, priority): pushes the queued call, re-sorts the queue
(stably, priority desc then timestamp asc), then either flushes immediately
(executeOnFull and the queue reached maxBatchSize) or schedules a flush. -/
def callStep (cfg : BatcherConfig) (s : BatcherState) (c : BCall) : BatcherState :=
  let s1 := { s with queue := sortQueue (s.queue ++ [c]) }
  if cfg.executeOnFull && cfg.maxBatchSize ≤ s1.queue.length then flushStep cfg s1
  else scheduleFlush s1

/-- The armed flush timer fires: the timer slot is cleared and flush() runs. -/
def timerFireB (cfg : BatcherConfig) (s : BatcherState) : BatcherState :=
  if s.timerArmed then flushStep cfg { s with timerArmed := false } else s

/-- Errors a queued call can be rejected with. -/
inductive BErr where
  /-- the normalized executor exception (catch branch of flush) -/
  | execError (e : String)
  /-- `No result returned for call i` -/
  | noResult (i : Nat)
deriving Repr, DecidableEq

/-- Settlement of one call handle. -/
inductive BOutcome where
  | resolved (r : Nat)
  | rejected (e : BErr)
deriving Repr, DecidableEq

/-- The result-assignment loop of flush for a successfully returned results
array: the call at position `i` resolves with `results[i]` when that slot
holds a result and rejects with the no-result error otherwise (a missing or
null slot, or an index past the end of the results array). -/
def settleOk (results : List (Option Nat)) : List BCall → Nat → List (Nat × BOutcome)
  | [], _ => []
  | c :: rest, i =>
    (match (results.get? i).join with
      | some r => (c.idx, BOutcome.resolved r)
      | none => (c.idx, BOutcome.rejected (BErr.noResult i))) :: settleOk results rest (i + 1)

/-- Settlement of a whole batch, from flush's try/catch: an executor
exception rejects every call with the normalized error; a normal return is
assigned positionally by `settleOk`. -/
def settleBatch (batch : List BCall) (res : Except String (List (Option Nat))) :
    List (Nat × BOutcome) :=
  match res with
  | .error e => batch.map fun c => (c.idx, BOutcome.rejected (BErr.execError e))
  | .ok results => settleOk results batch 0

/-- Resumption of flush when the awaited executor settles: the batch's calls
are settled, `isExecuting` is cleared, and if calls remain queued another
flush is scheduled (the finally block). -/
def execDone (s : BatcherState)
    (res : Except String (List (Option Nat))) : BatcherState × List (Nat × BOutcome) :=
  match s.executing with
  | none => (s, [])
  | some batch =>
    let s1 := { s with executing := none }
    let s2 := if s1.queue.isEmpty then s1 else scheduleFlush s1
    (s2, settleBatch batch res)

/-- The six calls of the batch-ordering scenario: priorities
[0, 10, 0, 10, 100, 5] in enqueue order, enqueue times 0..5. -/
def orderingCalls : List BCall :=
  [⟨0, 0, 0⟩, ⟨1, 10, 1⟩, ⟨2, 0, 2⟩, ⟨3, 10, 3⟩, ⟨4, 100, 4⟩, ⟨5, 5, 5⟩]

/-- The scenario batcher configured only with max batch size 3 (so
executeOnFull keeps its default true). -/
def orderingCfgDefault : BatcherConfig := { maxBatchSize := 3 }

/-- The six calls enqueued back to back under the default configuration. -/
def orderingRunDefault : BatcherState :=
  orderingCalls.foldl (callStep orderingCfgDefault) BatcherState.empty

/-- The scenario batcher with executeOnFull disabled. -/
def orderingCfgNoFull : BatcherConfig := { maxBatchSize := 3, executeOnFull := false }

/-- The six calls enqueued with executeOnFull disabled, then the flush timer
fires. -/
def orderingRunNoFull : BatcherState :=
  timerFireB orderingCfgNoFull
    (orderingCalls.foldl (callStep orderingCfgNoFull) BatcherState.empty)

/-- Positional settlement, generalized over the running index `k` that the
settlement loop starts from. -/
theorem settleOk_get? (results : List (Option Nat)) :
    ∀ (batch : List BCall) (i k : Nat) (c : BCall), batch.get? i = some c →
      (settleOk results batch k).get? i =
        some (match (results.get? (k + i)).join with
          | some r => (c.idx, BOutcome.resolved r)
          | none => (c.idx, BOutcome.rejected (BErr.noResult (k + i)))) := by
  intro batch
  induction batch with
  | nil => intro i k c h; simp at h
  | cons x xs ih =>
    intro i k c h
    cases i with
    | zero =>
      simp at h
      subst h
      simp [settleOk]
    | succ n =>
      have h2 := ih n (k + 1) c h
      have harith : k + 1 + n = k + (n + 1) := by omega
      rw [harith] at h2
      exact h2

/-- C3 (counterexample): with the batcher configured only with max batch
size 3 — executeOnFull keeping its default true — enqueueing priorities
[0, 10, 0, 10, 100, 5] back to back makes the third call trigger an
immediate flush, so the first batch handed to the executor has priorities
[10, 0, 0], not [100, 10, 10]. -/
theorem batcher_first_batch_claim_false :
    orderingRunDefault.dispatched.head? =
      some [⟨1, 10, 1⟩, ⟨0, 0, 0⟩, ⟨2, 0, 2⟩] ∧
    (orderingRunDefault.dispatched.head?).map (fun b => b.map BCall.priority) =
      some [10, 0, 0] ∧
    ¬ ((orderingRunDefault.dispatched.head?).map (fun b => b.map BCall.priority) =
      some [100, 10, 10]) := by decide

/-- C3 (amended): with max batch size 3 and executeOnFull disabled, all six
calls of priorities [0, 10, 0, 10, 100, 5] queue up; when the flush timer
fires, the first batch handed to the executor is the priority-100 call
followed by the two priority-10 calls in their original relative enqueue
order (call 1 before call 3). -/
theorem batcher_first_batch_no_execute_on_full :
    orderingRunNoFull.dispatched = [[⟨4, 100, 4⟩, ⟨1, 10, 1⟩, ⟨3, 10, 3⟩]] ∧
    orderingRunNoFull.dispatched.map (fun b => b.map BCall.priority) =
      [[100, 10, 10]] ∧
    orderingRunNoFull.dispatched.map (fun b => b.map BCall.idx) = [[4, 1, 3]] := by
  decide

/-- C5: whenever the executor invocation for a dispatched batch throws, every
call handle in that batch is rejected with the error derived from that
exception, and no call in the batch resolves. -/
theorem batcher_executor_failure_rejects_all (s : BatcherState)
    (batch : List BCall) (e : String) (h : s.executing = some batch) :
    (execDone s (.error e)).2 =
      batch.map (fun c => (c.idx, BOutcome.rejected (BErr.execError e))) ∧
    (∀ c ∈ batch, (c.idx, BOutcome.rejected (BErr.execError e)) ∈ (execDone s (.error e)).2) ∧
    (∀ p ∈ (execDone s (.error e)).2, ∀ r, p.2 ≠ BOutcome.resolved r) := by
  have h2 : (execDone s (.error e)).2 = settleBatch batch (.error e) := by
    simp [execDone, h]
  have h3 : settleBatch batch (.error e) =
      batch.map (fun c => (c.idx, BOutcome.rejected (BErr.execError e))) := rfl
  refine ⟨h2.trans h3, ?_, ?_⟩
  · intro c hc
    rw [h2, h3]
    exact List.mem_map_of_mem _ hc
  · intro p hp r
    rw [h2, h3] at hp
    obtain ⟨c, _, rfl⟩ := List.mem_map.mp hp
    simp

/-- A concrete executing state for the batch-failure witness. -/
def failBatch : List BCall := [⟨0, 0, 0⟩, ⟨1, 0, 1⟩, ⟨2, 0, 2⟩]

/-- A batcher state currently awaiting the executor on `failBatch`. -/
def failState : BatcherState :=
  { queue := [], timerArmed := false, executing := some failBatch,
    dispatched := [failBatch] }

theorem batcher_executor_failure_rejects_all_witness :
    ((0 : Nat), BOutcome.rejected (BErr.execError "boom")) ∈
      (execDone failState (.error "boom")).2 ∧
    (∀ p ∈ (execDone failState (.error "boom")).2, ∀ r, p.2 ≠ BOutcome.resolved r) := by
  have h := batcher_executor_failure_rejects_all failState failBatch "boom" rfl
  exact ⟨h.2.1 ⟨0, 0, 0⟩ (by decide), h.2.2⟩

/-- C6: when the executor returns normally, the call at each index `i` of the
batch resolves with the result at index `i` when one is present, and is
rejected with the no-result error when the slot at index `i` is missing —
independently of its siblings, each of which settles from its own slot. -/
theorem batcher_positional_results (batch : List BCall) (results : List (Option Nat))
    (i : Nat) (c : BCall) (h : batch.get? i = some c) :
    (∀ r, (results.get? i).join = some r →
      (settleBatch batch (.ok results)).get? i = some (c.idx, BOutcome.resolved r)) ∧
    ((results.get? i).join = none →
      (settleBatch batch (.ok results)).get? i =
        some (c.idx, BOutcome.rejected (BErr.noResult i))) := by
  have h2 := settleOk_get? results batch i 0 c h
  rw [Nat.zero_add] at h2
  constructor
  · intro r hr
    rw [hr] at h2
    exact h2
  · intro hr
    rw [hr] at h2
    exact h2

theorem batcher_positional_results_witness :
    (settleBatch failBatch (.ok [some 7, none, some 9])).get? 0 =
      some (0, BOutcome.resolved 7) ∧
    (settleBatch failBatch (.ok [some 7, none, some 9])).get? 1 =
      some (1, BOutcome.rejected (BErr.noResult 1)) ∧
    (settleBatch failBatch (.ok [some 7, none, some 9])).get? 2 =
      some (2, BOutcome.resolved 9) := by
  refine ⟨?_, ?_, ?_⟩
  · exact (batcher_positional_results failBatch [some 7, none, some 9] 0 ⟨0, 0, 0⟩
      (by decide)).1 7 (by decide)
  · exact (batcher_positional_results failBatch [some 7, none, some 9] 1 ⟨1, 0, 1⟩
      (by decide)).2 (by decide)
  · exact (batcher_positional_results failBatch [some 7, none, some 9] 2 ⟨2, 0, 2⟩
      (by decide)).1 9 (by decide)

/-! ## Definition cacher (ToolDefinitionCacher, cacher.ts) -/

/-- The three logical cache kinds. -/
inductive CacheKind where
  | tools
  | resources
  | prompts
deriving Repr, DecidableEq

/-- CACHE_KEYS: the fixed key for each kind. -/
def cacheKey : CacheKind → String
  | .tools => "mcp:tools"
  | .resources => "mcp:resources"
  | .prompts => "mcp:prompts"

/-- The reverse mapping used by fetchAndCache to decide whether to fire the
onUpdate notification (Object.entries(CACHE_KEYS).find). -/
def keyKind (k : String) : Option CacheKind :=
  if k == "mcp:tools" then some .tools
  else if k == "mcp:resources" then some .resources
  else if k == "mcp:prompts" then some .prompts
  else none

/-- CacheEntry: the cached payload with its metadata; the payload is
abstracted to a Nat. -/
structure CEntry where
  data : Nat
  fetchedAt : Nat
  expiresAt : Nat
  size : Nat
deriving Repr, DecidableEq

/-- CacherOptions with the constructor's defaults; `hasStorage` records
whether a storage adapter was supplied. -/
structure CacherConfig where
  ttlMs : Nat := 300000
  autoRefresh : Bool := false
  autoRefreshBeforeExpiryMs : Nat := 30000
  hasStorage : Bool := false
deriving Repr

/-- Map#set on an association list: replace the entry for the key, or append
a fresh one. -/
def setKey {α : Type} (k : String) (v : α) : List (String × α) → List (String × α)
  | [] => [(k, v)]
  | (k', v') :: rest => if k' == k then (k, v) :: rest else (k', v') :: setKey k v rest

/-- Map#delete on an association list. -/
def delKey {α : Type} (k : String) (l : List (String × α)) : List (String × α) :=
  l.filter (fun p => !(p.1 == k))

/-- One invocation of the configured fetch function: `fid` is the invocation
id, `foreground` is true exactly when the invocation came from getCached's
miss path (and is thus registered in pendingFetches). -/
structure FetchRec where
  fid : Nat
  key : String
  foreground : Bool
deriving Repr, DecidableEq

/-- ToolDefinitionCacher state.  `inFlight` holds the fetch invocations whose
promise has not settled yet; `fetchLog` is the append-only log of every fetch
invocation; `updates` logs the onUpdate notifications; `storage` is the
persistent adapter's table (meaningful when the config has storage). -/
structure CacherState where
  cache : List (String × CEntry)
  pendingFetches : List (String × Nat)
  refreshTimers : List String
  hits : Nat
  misses : Nat
  inFlight : List FetchRec
  fetchLog : List FetchRec
  nextFid : Nat
  storage : List (String × CEntry)
  updates : List String
deriving Repr, DecidableEq

def CacherState.start : CacherState := ⟨[], [], [], 0, 0, [], [], 0, [], []⟩

/-- cancelRefresh(key): clears and removes the key's auto-refresh timer. -/
def cancelRefresh (s : CacherState) (key : String) : CacherState :=
  { s with refreshTimers := s.refreshTimers.filter (fun k => !(k == key)) }

/-- The timer-map effect of scheduleRefresh(key, fetchFn, expiresAt): when
autoRefresh is enabled, the previous timer for the key is cancelled and a new
one armed if the refresh instant (expiresAt - autoRefreshBeforeExpiryMs) is
still in the future.  Truncated Nat subtraction coincides with the source's
Math.max(0, refreshAt - now). -/
def schedTimers (cfg : CacherConfig) (timers : List String) (key : String)
    (expiresAt now : Nat) : List String :=
  if !cfg.autoRefresh then timers
  else
    let t1 := timers.filter (fun k => !(k == key))
    let delay := expiresAt - cfg.autoRefreshBeforeExpiryMs - now
    if 0 < delay then key :: t1 else t1

/-- scheduleRefresh touches only the refreshTimers map. -/
def scheduleRefresh (cfg : CacherConfig) (s : CacherState) (key : String)
    (expiresAt now : Nat) : CacherState :=
  { s with refreshTimers := schedTimers cfg s.refreshTimers key expiresAt now }

/-- refreshInBackground(key, fetchFn): starts a fetch invocation without
consulting or registering the pendingFetches table. -/
def refreshInBackground (s : CacherState) (key : String) : CacherState :=
  let r : FetchRec := ⟨s.nextFid, key, false⟩
  { s with inFlight := s.inFlight ++ [r], fetchLog := s.fetchLog ++ [r],
           nextFid := s.nextFid + 1 }

/-- How a getCached call returned (or suspended) at the end of its
synchronous prefix. -/
inductive GetOutcome where
  /-- fresh memory entry returned (hit) -/
  | hit (data : Nat)
  /-- expired entry returned stale while a background refresh was started -/
  | staleHit (data : Nat) (bgFid : Nat)
  /-- non-expired persistent entry promoted into memory and returned -/
  | storageHit (data : Nat)
  /-- miss that joined the already-pending fetch `fid` -/
  | joined (fid : Nat)
  /-- miss that started (and registered) the new foreground fetch `fid` -/
  | started (fid : Nat)
deriving Repr, DecidableEq

/-- The state after a miss that starts (and registers) a foreground fetch. -/
def missState (s : CacherState) (key : String) : CacherState :=
  { s with misses := s.misses + 1,
           inFlight := s.inFlight ++ [⟨s.nextFid, key, true⟩],
           fetchLog := s.fetchLog ++ [⟨s.nextFid, key, true⟩],
           pendingFetches := setKey key s.nextFid s.pendingFetches,
           nextFid := s.nextFid + 1 }

/-- The deduplication tail of getCached (after `this.stats.misses++`): join
the pending fetch for the key if one exists, otherwise start a new fetch and
register it in pendingFetches. -/
def missPath (s : CacherState) (key : String) : CacherState × GetOutcome :=
  let s1 := { s with misses := s.misses + 1 }
  match s1.pendingFetches.lookup key with
  | some fid => (s1, .joined fid)
  | none =>
    let r : FetchRec := ⟨s1.nextFid, key, true⟩
    ({ s1 with inFlight := s1.inFlight ++ [r], fetchLog := s1.fetchLog ++ [r],
               pendingFetches := setKey key s1.nextFid s1.pendingFetches,
               nextFid := s1.nextFid + 1 }, .started r.fid)

/-- getCached(key, fetchFn, options) through the end of its synchronous
prefix: the memory-cache checks, the stale-while-revalidate branch, the
persistent-storage promotion (the storage adapter's get modeled as atomic),
and the deduplicated miss path. -/
def getCachedStep (cfg : CacherConfig) (s : CacherState) (key : String)
    (forceRefresh staleWhileRevalidate : Bool) (now : Nat) : CacherState × GetOutcome :=
  match s.cache.lookup key with
  | some entry =>
    if forceRefresh then missPath s key
    else if now < entry.expiresAt then
      ({ s with hits := s.hits + 1 }, .hit entry.data)
    else if staleWhileRevalidate then
      (refreshInBackground { s with hits := s.hits + 1 } key,
        .staleHit entry.data s.nextFid)
    else missPath s key
  | none =>
    if cfg.hasStorage then
      match s.storage.lookup key with
      | some stored =>
        if now < stored.expiresAt then
          (scheduleRefresh cfg
            { s with cache := setKey key stored s.cache, hits := s.hits + 1 }
            key stored.expiresAt now, .storageHit stored.data)
        else missPath s key
      | none => missPath s key
    else missPath s key

def findFetch (s : CacherState) (fid : Nat) : Option FetchRec :=
  s.inFlight.find? (fun r => r.fid == fid)

/-- Resumption of fetchAndCache when the awaited fetchFn resolves with `data`
at time `now`: the new entry is written to memory (and mirrored to storage
when configured), auto-refresh is scheduled, the onUpdate notification fires
for a recognized key, and — through the finally block of the getCached call
that started it — a registered foreground fetch is removed from
pendingFetches. -/
def fetchOk (cfg : CacherConfig) (s : CacherState) (fid data size now : Nat) :
    CacherState :=
  match findFetch s fid with
  | none => s
  | some r =>
    let entry : CEntry := ⟨data, now, now + cfg.ttlMs, size⟩
    let s1 := { s with inFlight := s.inFlight.filter (fun q => !(q.fid == fid)),
                       cache := setKey r.key entry s.cache }
    let s2 := if cfg.hasStorage then { s1 with storage := setKey r.key entry s1.storage }
              else s1
    let s3 := scheduleRefresh cfg s2 r.key entry.expiresAt now
    let s4 := match keyKind r.key with
      | some _ => { s3 with updates := s3.updates ++ [r.key] }
      | none => s3
    if r.foreground then { s4 with pendingFetches := delKey r.key s4.pendingFetches }
    else s4

/-- Resumption when the awaited fetchFn rejects: nothing is written to the
cache; a registered foreground fetch clears its pendingFetches entry and the
error propagates to every getCached caller awaiting it (returned Bool), while
a background fetch only logs the failure. -/
def fetchFail (s : CacherState) (fid : Nat) : CacherState × Bool :=
  match findFetch s fid with
  | none => (s, false)
  | some r =>
    let s1 := { s with inFlight := s.inFlight.filter (fun q => !(q.fid == fid)) }
    if r.foreground then
      ({ s1 with pendingFetches := delKey r.key s1.pendingFetches }, true)
    else (s1, false)

/-- invalidate(type): removes the memory entry, cancels the key's
auto-refresh timer, and deletes the persistent entry when storage is
configured. -/
def invalidateStep (cfg : CacherConfig) (s : CacherState) (kind : CacheKind) :
    CacherState :=
  let key := cacheKey kind
  let s1 := cancelRefresh { s with cache := delKey key s.cache } key
  if cfg.hasStorage then { s1 with storage := delKey key s1.storage } else s1

/-- invalidateAll(): clears the memory table, every auto-refresh timer, and
the persistent store when configured. -/
def invalidateAllStep (cfg : CacherConfig) (s : CacherState) : CacherState :=
  let s1 := { s with cache := [], refreshTimers := [] }
  if cfg.hasStorage then { s1 with storage := [] } else s1

/-- dispose(): cancels every timer and clears the memory table, leaving the
persistent store untouched. -/
def disposeStep (s : CacherState) : CacherState :=
  { s with refreshTimers := [], cache := [] }

/-- An armed auto-refresh timer for `key` fires: the timer is spent and
refreshInBackground starts an unregistered fetch. -/
def refreshTimerFire (s : CacherState) (key : String) : CacherState :=
  if s.refreshTimers.contains key then refreshInBackground (cancelRefresh s key) key
  else s

/-- One atomic transition of the cacher: the synchronous prefix of a
getCached call, a fetch promise settling, an invalidation, a dispose, or an
auto-refresh timer firing. -/
inductive CStep (cfg : CacherConfig) : CacherState → CacherState → Prop
  | get (s : CacherState) (key : String) (forceRefresh staleWhileRevalidate : Bool)
      (now : Nat) :
      CStep cfg s (getCachedStep cfg s key forceRefresh staleWhileRevalidate now).1
  | fetchSuccess (s : CacherState) (fid data size now : Nat) :
      CStep cfg s (fetchOk cfg s fid data size now)
  | fetchFailure (s : CacherState) (fid : Nat) :
      CStep cfg s (fetchFail s fid).1
  | invalidateOne (s : CacherState) (kind : CacheKind) :
      CStep cfg s (invalidateStep cfg s kind)
  | invalidateEverything (s : CacherState) :
      CStep cfg s (invalidateAllStep cfg s)
  | dispose (s : CacherState) :
      CStep cfg s (disposeStep s)
  | timer (s : CacherState) (key : String) :
      CStep cfg s (refreshTimerFire s key)

/-- Cacher states reachable from a fresh cacher. -/
def CReach (cfg : CacherConfig) (s : CacherState) : Prop :=
  Relation.ReflTransGen (CStep cfg) CacherState.start s

/-- Number of outstanding foreground (pending-table-registered) fetch
invocations for a key. -/
def fgCount (s : CacherState) (key : String) : Nat :=
  (s.inFlight.filter (fun r => r.foreground && r.key == key)).length

/-- Number of outstanding fetch invocations for a key, foreground or
background. -/
def flightCount (s : CacherState) (key : String) : Nat :=
  (s.inFlight.filter (fun r => r.key == key)).length

theorem lookup_setKey_self {α : Type} (k : String) (v : α) (l : List (String × α)) :
    (setKey k v l).lookup k = some v := by
  induction l with
  | nil => simp [setKey, List.lookup]
  | cons p rest ih =>
    obtain ⟨k', v'⟩ := p
    by_cases h : k' = k
    · subst h
      simp [setKey, List.lookup]
    · have hb : (k' == k) = false := by simpa using h
      have hb2 : (k == k') = false := by simpa using (Ne.symm h)
      simp [setKey, hb, List.lookup, hb2, ih]

theorem lookup_setKey_ne {α : Type} (k k' : String) (v : α) (l : List (String × α))
    (h : k' ≠ k) : (setKey k v l).lookup k' = l.lookup k' := by
  induction l with
  | nil => simp [setKey, List.lookup, show (k' == k) = false by simpa using h]
  | cons p rest ih =>
    obtain ⟨k0, v0⟩ := p
    by_cases h0 : k0 = k
    · subst h0
      simp [setKey, List.lookup, show (k' == k0) = false by simpa using h]
    · simp [setKey, show (k0 == k) = false by simpa using h0, List.lookup, ih]

theorem lookup_delKey_self {α : Type} (k : String) (l : List (String × α)) :
    (delKey k l).lookup k = none := by
  induction l with
  | nil => simp [delKey, List.lookup]
  | cons p rest ih =>
    obtain ⟨k0, v0⟩ := p
    by_cases h0 : k0 = k
    · subst h0
      simpa [delKey, List.lookup] using ih
    · simp only [delKey] at ih ⊢
      simp [List.filter, show (k0 == k) = false by simpa using h0, List.lookup,
        show (k == k0) = false by simpa using (Ne.symm h0), ih]

theorem lookup_delKey_ne {α : Type} (k k' : String) (l : List (String × α))
    (h : k' ≠ k) : (delKey k l).lookup k' = l.lookup k' := by
  induction l with
  | nil => simp [delKey, List.lookup]
  | cons p rest ih =>
    obtain ⟨k0, v0⟩ := p
    by_cases h0 : k0 = k
    · subst h0
      simp only [delKey] at ih ⊢
      simp [List.filter, List.lookup, show (k' == k0) = false by simpa using h, ih]
    · simp only [delKey] at ih ⊢
      by_cases h1 : k' = k0
      · subst h1
        simp [List.filter, show (k' == k) = false by simpa using h, List.lookup]
      · simp [List.filter, show (k0 == k) = false by simpa using h0, List.lookup,
          show (k' == k0) = false by simpa using h1, ih]

/-- Characterization of the miss path when no fetch is pending for the key. -/
theorem missPath_none (s : CacherState) (key : String)
    (h : s.pendingFetches.lookup key = none) :
    missPath s key = (missState s key, .started s.nextFid) := by
  unfold missPath missState
  simp [h]

/-- Characterization of the miss path when a fetch is already pending. -/
theorem missPath_some (s : CacherState) (key : String) (fid : Nat)
    (h : s.pendingFetches.lookup key = some fid) :
    missPath s key = ({ s with misses := s.misses + 1 }, .joined fid) := by
  unfold missPath
  simp [h]

/-- Characterization of fetchOk on a live fetch invocation. -/
theorem fetchOk_some (cfg : CacherConfig) (s : CacherState) (fid d sz now : Nat)
    (r : FetchRec) (h : findFetch s fid = some r) :
    fetchOk cfg s fid d sz now =
      { s with
        inFlight := s.inFlight.filter (fun q => !(q.fid == fid)),
        cache := setKey r.key ⟨d, now, now + cfg.ttlMs, sz⟩ s.cache,
        storage := if cfg.hasStorage then
            setKey r.key ⟨d, now, now + cfg.ttlMs, sz⟩ s.storage
          else s.storage,
        refreshTimers := schedTimers cfg s.refreshTimers r.key (now + cfg.ttlMs) now,
        updates := if (keyKind r.key).isSome then s.updates ++ [r.key] else s.updates,
        pendingFetches := if r.foreground then delKey r.key s.pendingFetches
          else s.pendingFetches } := by
  unfold fetchOk scheduleRefresh
  rw [h]
  rcases hk : keyKind r.key with _ | kind <;>
    rcases hs : cfg.hasStorage with _ | _ <;>
    rcases hf : r.foreground with _ | _ <;>
    simp [hk, hs, hf]

/-- Characterization of fetchFail on a live fetch invocation. -/
theorem fetchFail_some (s : CacherState) (fid : Nat) (r : FetchRec)
    (h : findFetch s fid = some r) :
    fetchFail s fid =
      ({ s with
          inFlight := s.inFlight.filter (fun q => !(q.fid == fid)),
          pendingFetches := if r.foreground then delKey r.key s.pendingFetches
            else s.pendingFetches }, r.foreground) := by
  unfold fetchFail
  rw [h]
  rcases hf : r.foreground with _ | _ <;> simp [hf]

/-- Inductive invariant for foreground single-flight: the outstanding
foreground fetches for a key number at most one, and there are none at all
when the key is not registered in pendingFetches. -/
def CInv (s : CacherState) : Prop :=
  ∀ key, fgCount s key ≤ 1 ∧
    (s.pendingFetches.lookup key = none →
      s.inFlight.filter (fun r => r.foreground && r.key == key) = [])

theorem cinv_start : CInv CacherState.start := by
  intro key
  exact ⟨by simp [fgCount, CacherState.start], fun _ => by simp [CacherState.start]⟩

/-- Transitions leaving inFlight and pendingFetches untouched preserve the
invariant. -/
theorem cinv_frame (s s' : CacherState) (hin : s'.inFlight = s.inFlight)
    (hp : s'.pendingFetches = s.pendingFetches) (h : CInv s) : CInv s' := by
  intro key
  constructor
  · unfold fgCount
    rw [hin]
    exact (h key).1
  · intro hl
    rw [hin]
    exact (h key).2 (hp ▸ hl)

/-- Appending a background fetch invocation preserves the invariant. -/
theorem cinv_bgAdd (s s' : CacherState) (r : FetchRec) (hr : r.foreground = false)
    (hin : s'.inFlight = s.inFlight ++ [r]) (hp : s'.pendingFetches = s.pendingFetches)
    (h : CInv s) : CInv s' := by
  intro key
  have hfil : s'.inFlight.filter (fun q => q.foreground && q.key == key) =
      s.inFlight.filter (fun q => q.foreground && q.key == key) := by
    rw [hin, List.filter_append]
    simp [List.filter, hr]
  constructor
  · unfold fgCount
    rw [hfil]
    exact (h key).1
  · intro hl
    rw [hfil]
    exact (h key).2 (hp ▸ hl)

/-- The miss path preserves the invariant: it starts a foreground fetch only
for an unregistered key, which it registers. -/
theorem cinv_missPath (s : CacherState) (key : String) (h : CInv s) :
    CInv (missPath s key).1 := by
  rcases hl : s.pendingFetches.lookup key with _ | fid
  · rw [missPath_none s key hl]
    show CInv (missState s key)
    unfold missState
    intro k
    by_cases hk : k = key
    · subst hk
      have hempty := (h k).2 hl
      constructor
      · unfold fgCount
        simp only [List.filter_append, hempty]
        simp [List.filter]
      · intro hlk
        rw [lookup_setKey_self] at hlk
        exact absurd hlk (by simp)
    · have hfil : (s.inFlight ++ [(⟨s.nextFid, key, true⟩ : FetchRec)]).filter
          (fun q => q.foreground && q.key == k) =
          s.inFlight.filter (fun q => q.foreground && q.key == k) := by
        rw [List.filter_append]
        simp [List.filter, show (key == k) = false by simpa using (Ne.symm hk)]
      constructor
      · unfold fgCount
        simp only [hfil]
        exact (h k).1
      · intro hlk
        rw [lookup_setKey_ne key k _ _ hk] at hlk
        simp only [hfil]
        exact (h k).2 hlk
  · rw [missPath_some s key fid hl]
    exact cinv_frame s _ rfl rfl h

/-- Settling a fetch invocation (success or failure) preserves the
invariant: the invocation leaves inFlight, and a foreground invocation also
leaves pendingFetches. -/
theorem cinv_complete (s s' : CacherState) (r : FetchRec) (fid : Nat)
    (hf : findFetch s fid = some r)
    (hin : s'.inFlight = s.inFlight.filter (fun q => !(q.fid == fid)))
    (hp : s'.pendingFetches =
      if r.foreground then delKey r.key s.pendingFetches else s.pendingFetches)
    (h : CInv s) : CInv s' := by
  have hf' : s.inFlight.find? (fun q => q.fid == fid) = some r := hf
  have hmem : r ∈ s.inFlight := List.mem_of_find?_eq_some hf'
  have hfid : (r.fid == fid) = true := by simpa using List.find?_some hf'
  intro key
  have hsub : List.Sublist (s'.inFlight.filter (fun q => q.foreground && q.key == key))
      (s.inFlight.filter (fun q => q.foreground && q.key == key)) := by
    rw [hin]
    exact (List.filter_sublist _).filter _
  refine ⟨le_trans (List.Sublist.length_le hsub) (h key).1, ?_⟩
  intro hlk
  rcases hfg : r.foreground with _ | _
  · rw [hp, hfg] at hlk
    rw [if_neg Bool.false_ne_true] at hlk
    have hold := (h key).2 hlk
    exact List.sublist_nil.mp (hold ▸ hsub)
  · rw [hp, hfg] at hlk
    rw [if_pos rfl] at hlk
    by_cases hk : key = r.key
    · refine List.eq_nil_iff_forall_not_mem.mpr ?_
      intro x hx
      have hx1 : x ∈ s.inFlight.filter (fun q => q.foreground && q.key == key) :=
        (List.Sublist.subset hsub) hx
      have hr_in : r ∈ s.inFlight.filter (fun q => q.foreground && q.key == key) := by
        refine List.mem_filter.mpr ⟨hmem, ?_⟩
        simp [hfg, hk]
      have hlen : (s.inFlight.filter (fun q => q.foreground && q.key == key)).length ≤ 1 :=
        (h key).1
      have hxr : x = r := by
        rcases hef : s.inFlight.filter (fun q => q.foreground && q.key == key)
          with _ | ⟨y, rest⟩
        · rw [hef] at hx1
          simp at hx1
        · rw [hef] at hx1 hr_in hlen
          have hrest : rest = [] := by
            simp only [List.length_cons] at hlen
            exact List.length_eq_zero.mp (by omega)
          subst hrest
          simp at hx1 hr_in
          exact hx1.trans hr_in.symm
      subst hxr
      rw [hin] at hx
      have hx3 := (List.mem_filter.mp (List.mem_filter.mp hx).1).2
      rw [hfid] at hx3
      simp at hx3
    · have hlk2 : s.pendingFetches.lookup key = none := by
        rw [← lookup_delKey_ne r.key key _ hk]
        exact hlk
      have hold := (h key).2 hlk2
      exact List.sublist_nil.mp (hold ▸ hsub)

/-- getCached's synchronous prefix preserves the invariant. -/
theorem cinv_get (cfg : CacherConfig) (s : CacherState) (key : String)
    (force swr : Bool) (now : Nat) (h : CInv s) :
    CInv (getCachedStep cfg s key force swr now).1 := by
  unfold getCachedStep
  split
  · split
    · exact cinv_missPath s key h
    · split
      · exact cinv_frame s _ rfl rfl h
      · split
        · exact cinv_bgAdd s _ ⟨s.nextFid, key, false⟩ rfl rfl rfl h
        · exact cinv_missPath s key h
  · split
    · split
      · split
        · exact cinv_frame s _ rfl rfl h
        · exact cinv_missPath s key h
      · exact cinv_missPath s key h
    · exact cinv_missPath s key h

/-- Every cacher transition preserves the invariant. -/
theorem cinv_step (cfg : CacherConfig) (s s' : CacherState)
    (hstep : CStep cfg s s') (h : CInv s) : CInv s' := by
  cases hstep with
  | get key force swr now => exact cinv_get cfg s key force swr now h
  | fetchSuccess fid d sz now =>
    rcases hf : findFetch s fid with _ | r
    · unfold fetchOk
      rw [hf]
      exact h
    · rw [fetchOk_some cfg s fid d sz now r hf]
      exact cinv_complete s _ r fid hf rfl rfl h
  | fetchFailure fid =>
    rcases hf : findFetch s fid with _ | r
    · unfold fetchFail
      rw [hf]
      exact h
    · rw [fetchFail_some s fid r hf]
      exact cinv_complete s _ r fid hf rfl rfl h
  | invalidateOne kind =>
    refine cinv_frame s _ ?_ ?_ h <;>
      · unfold invalidateStep cancelRefresh
        split <;> rfl
  | invalidateEverything =>
    refine cinv_frame s _ ?_ ?_ h <;>
      · unfold invalidateAllStep
        split <;> rfl
  | dispose => exact cinv_frame s _ rfl rfl h
  | timer key =>
    unfold refreshTimerFire
    split
    · exact cinv_bgAdd s _ ⟨s.nextFid, key, false⟩ rfl rfl rfl h
    · exact h

theorem cacher_reach_cinv (cfg : CacherConfig) (s : CacherState)
    (h : CReach cfg s) : CInv s := by
  induction h with
  | refl => exact cinv_start
  | tail h1 h2 ih => exact cinv_step cfg _ _ h2 ih

/-- C2 (amended): in every reachable cacher state, at most one foreground
(miss-path, pendingFetches-registered) fetch invocation per key is
outstanding — concurrent foreground misses join the pending fetch.
Background refreshes (stale-while-revalidate and auto-refresh) bypass the
pending-fetch table and are not deduplicated. -/
theorem cacher_foreground_single_flight (cfg : CacherConfig) (s : CacherState)
    (h : CReach cfg s) (key : String) : fgCount s key ≤ 1 :=
  (cacher_reach_cinv cfg s h key).1

/-- The single-flight scenario configuration: a 50 ms TTL, no storage, no
auto-refresh. -/
def swrCfg : CacherConfig := { ttlMs := 50 }

/-- Fresh cacher, one getTools miss at t=0. -/
def swrS1 : CacherState :=
  (getCachedStep swrCfg CacherState.start "mcp:tools" false false 0).1

/-- The foreground fetch resolves at t=0 with payload 7, caching an entry
that expires at t=50. -/
def swrS2 : CacherState := fetchOk swrCfg swrS1 0 7 1 0

/-- A stale-while-revalidate getTools at t=100 (entry expired). -/
def swrS3 : CacherState := (getCachedStep swrCfg swrS2 "mcp:tools" false true 100).1

/-- A second stale-while-revalidate getTools at t=100, issued before either
background refresh resolves. -/
def swrS4 : CacherState := (getCachedStep swrCfg swrS3 "mcp:tools" false true 100).1

theorem cacher_foreground_single_flight_witness :
    fgCount swrS1 "mcp:tools" = 1 ∧ fgCount swrS1 "mcp:tools" ≤ 1 :=
  ⟨by decide, cacher_foreground_single_flight swrCfg swrS1
    (Relation.ReflTransGen.single (CStep.get CacherState.start "mcp:tools" false false 0))
    "mcp:tools"⟩

/-- C2 (counterexample): two stale-while-revalidate getTools calls issued
while the cached entry is expired each trigger refreshInBackground, which
starts a fetch without consulting pendingFetches: the reachable state swrS4
has two outstanding fetch invocations for the single key mcp:tools, so the
claimed at-most-one-outstanding-fetch-per-key guarantee is false. -/
theorem cacher_single_flight_claim_false :
    CReach swrCfg swrS4 ∧ flightCount swrS4 "mcp:tools" = 2 ∧
      ¬ flightCount swrS4 "mcp:tools" ≤ 1 := by
  refine ⟨?_, by decide, by decide⟩
  have h1 : CStep swrCfg CacherState.start swrS1 :=
    CStep.get CacherState.start "mcp:tools" false false 0
  have h2 : CStep swrCfg swrS1 swrS2 := CStep.fetchSuccess swrS1 0 7 1 0
  have h3 : CStep swrCfg swrS2 swrS3 := CStep.get swrS2 "mcp:tools" false true 100
  have h4 : CStep swrCfg swrS3 swrS4 := CStep.get swrS3 "mcp:tools" false true 100
  exact Relation.ReflTransGen.tail
    (Relation.ReflTransGen.tail
      (Relation.ReflTransGen.tail (Relation.ReflTransGen.single h1) h2) h3) h4

/-- Inversion for the miss path: a started outcome means the key had no
pending fetch, and pins down the successor state. -/
theorem missPath_started (s s1 : CacherState) (key : String) (fid : Nat)
    (h : missPath s key = (s1, .started fid)) :
    s.pendingFetches.lookup key = none ∧ fid = s.nextFid ∧ s1 = missState s key := by
  rcases hl : s.pendingFetches.lookup key with _ | f
  · rw [missPath_none s key hl] at h
    have h1 := congrArg Prod.fst h
    have h2 := congrArg Prod.snd h
    simp at h1 h2
    exact ⟨rfl, h2.symm, h1.symm⟩
  · rw [missPath_some s key f hl] at h
    have h2 := congrArg Prod.snd h
    simp at h2

/-- Inversion for getCached: a started outcome means the call took the miss
path, and the miss path always receives the unmodified entry state. -/
theorem getCachedStep_started (cfg : CacherConfig) (s s1 : CacherState)
    (key : String) (force swr : Bool) (now fid : Nat)
    (h : getCachedStep cfg s key force swr now = (s1, .started fid)) :
    missPath s key = (s1, .started fid) := by
  unfold getCachedStep at h
  split at h
  · split at h
    · exact h
    · split at h
      · have h2 := congrArg Prod.snd h
        simp at h2
      · split at h
        · have h2 := congrArg Prod.snd h
          simp at h2
        · exact h
  · split at h
    · split at h
      · split at h
        · have h2 := congrArg Prod.snd h
          simp at h2
        · exact h
      · exact h
    · exact h

/-- A get on a state with no memory entry, no storage adapter and no pending
fetch for the key takes the miss path and starts a fresh fetch. -/
theorem getCachedStep_miss_start (cfg : CacherConfig) (s2 : CacherState)
    (key : String) (force swr : Bool) (now : Nat)
    (hc : s2.cache.lookup key = none) (hst : cfg.hasStorage = false)
    (hp : s2.pendingFetches.lookup key = none) :
    (getCachedStep cfg s2 key force swr now).2 = .started s2.nextFid := by
  unfold getCachedStep
  rw [hc, hst]
  simp only [Bool.false_eq_true, if_false]
  rw [missPath_none s2 key hp]

/-- C7: when a foreground get takes the miss path (starting fetch `fid`) and
that fetch rejects, the error propagates to the caller, the memory table is
exactly what it was before the failed get, the pending entry is cleared and
no fetch stays outstanding — and, if the key had no cached entry and no
storage adapter is configured, the next get for the key takes the miss path
again, starting a fresh fetch. -/
theorem cacher_foreground_fetch_failure_atomic (cfg : CacherConfig)
    (s s1 : CacherState) (key : String) (force swr : Bool) (now fid : Nat)
    (hbound : ∀ q ∈ s.inFlight, q.fid < s.nextFid)
    (hget : getCachedStep cfg s key force swr now = (s1, .started fid)) :
    (fetchFail s1 fid).2 = true ∧
    (fetchFail s1 fid).1.cache = s.cache ∧
    (fetchFail s1 fid).1.pendingFetches.lookup key = none ∧
    (fetchFail s1 fid).1.inFlight = s.inFlight ∧
    (s.cache.lookup key = none → cfg.hasStorage = false →
      ∀ force' swr' now',
        (getCachedStep cfg (fetchFail s1 fid).1 key force' swr' now').2 =
          .started (fetchFail s1 fid).1.nextFid) := by
  obtain ⟨hl, hfid, hs1⟩ :=
    missPath_started s s1 key fid (getCachedStep_started cfg s s1 key force swr now fid hget)
  subst hfid
  subst hs1
  have hfind : findFetch (missState s key) s.nextFid = some ⟨s.nextFid, key, true⟩ := by
    show (s.inFlight ++ [(⟨s.nextFid, key, true⟩ : FetchRec)]).find?
      (fun q => q.fid == s.nextFid) = _
    rw [List.find?_append]
    have hnone : s.inFlight.find? (fun q => q.fid == s.nextFid) = none := by
      rw [List.find?_eq_none]
      intro q hq
      simp [Nat.ne_of_lt (hbound q hq)]
    rw [hnone]
    simp
  have hff := fetchFail_some (missState s key) s.nextFid ⟨s.nextFid, key, true⟩ hfind
  rw [hff]
  have hinf : (missState s key).inFlight.filter
      (fun q => !(q.fid == s.nextFid)) = s.inFlight := by
    show (s.inFlight ++ [(⟨s.nextFid, key, true⟩ : FetchRec)]).filter
      (fun q => !(q.fid == s.nextFid)) = s.inFlight
    rw [List.filter_append]
    have hself : s.inFlight.filter (fun q => !(q.fid == s.nextFid)) = s.inFlight := by
      rw [List.filter_eq_self]
      intro q hq
      simp [Nat.ne_of_lt (hbound q hq)]
    rw [hself]
    simp
  refine ⟨rfl, rfl, ?_, ?_, ?_⟩
  · simp only [if_pos rfl]
    exact lookup_delKey_self key _
  · simpa using hinf
  · intro hc hst force' swr' now'
    refine getCachedStep_miss_start cfg _ key force' swr' now' ?_ hst ?_
    · exact hc
    · exact lookup_delKey_self key _

/-- A default-configured cacher (no storage adapter). -/
def c7cfg : CacherConfig := {}

/-- One getTools miss on a fresh default cacher at t=0. -/
def c7s1 : CacherState :=
  (getCachedStep c7cfg CacherState.start "mcp:tools" false false 0).1

theorem cacher_foreground_fetch_failure_atomic_witness :
    (fetchFail c7s1 0).2 = true ∧ (fetchFail c7s1 0).1.cache = [] ∧
    (getCachedStep c7cfg (fetchFail c7s1 0).1 "mcp:tools" false false 5).2 =
      .started (fetchFail c7s1 0).1.nextFid := by
  have h := cacher_foreground_fetch_failure_atomic c7cfg CacherState.start c7s1
    "mcp:tools" false false 0 0 (by simp [CacherState.start]) rfl
  exact ⟨h.1, h.2.1, h.2.2.2.2 rfl rfl false false 5⟩

/-- A get that finds a fresh memory entry returns it as a hit, bumping only
the hit counter. -/
theorem getCachedStep_hit (cfg : CacherConfig) (s : CacherState) (key : String)
    (swr : Bool) (now : Nat) (entry : CEntry)
    (hc : s.cache.lookup key = some entry) (hnow : now < entry.expiresAt) :
    getCachedStep cfg s key false swr now =
      ({ s with hits := s.hits + 1 }, .hit entry.data) := by
  unfold getCachedStep
  simp only [hc, Bool.false_eq_true, if_false]
  rw [if_pos hnow]

/-- The first getTools on a fresh cacher. -/
def missHit1 (cfg : CacherConfig) (t0 : Nat) : CacherState × GetOutcome :=
  getCachedStep cfg CacherState.start "mcp:tools" false false t0

/-- The fetch started by the first getTools resolves at t1 with payload d. -/
def missHit2 (cfg : CacherConfig) (t0 t1 d sz : Nat) : CacherState :=
  fetchOk cfg (missHit1 cfg t0).1 0 d sz t1

/-- A second getTools at t2. -/
def missHit3 (cfg : CacherConfig) (t0 t1 t2 d sz : Nat) : CacherState × GetOutcome :=
  getCachedStep cfg (missHit2 cfg t0 t1 d sz) "mcp:tools" false false t2

/-- C9: on a fresh cacher the first getTools is a miss that invokes the
fetch function exactly once; once that fetch resolves, a second getTools
before the entry's TTL expires is a hit returning the cached payload with no
further fetch invocation. -/
theorem cacher_miss_then_hit (cfg : CacherConfig) (d sz t0 t1 t2 : Nat)
    (hfresh : t2 < t1 + cfg.ttlMs) :
    (missHit1 cfg t0).2 = .started 0 ∧
    (missHit1 cfg t0).1.misses = 1 ∧ (missHit1 cfg t0).1.hits = 0 ∧
    (missHit1 cfg t0).1.fetchLog.length = 1 ∧
    (missHit3 cfg t0 t1 t2 d sz).2 = .hit d ∧
    (missHit3 cfg t0 t1 t2 d sz).1.hits = 1 ∧
    (missHit3 cfg t0 t1 t2 d sz).1.misses = 1 ∧
    (missHit3 cfg t0 t1 t2 d sz).1.fetchLog.length = 1 := by
  have h1 : missHit1 cfg t0 = (missState CacherState.start "mcp:tools", .started 0) := by
    unfold missHit1 getCachedStep
    rcases hs : cfg.hasStorage with _ | _ <;> rfl
  have h12 : (missHit1 cfg t0).1 = missState CacherState.start "mcp:tools" := by
    rw [h1]
  have h2 := fetchOk_some cfg (missState CacherState.start "mcp:tools") 0 d sz t1
    ⟨0, "mcp:tools", true⟩ rfl
  have hOk : missHit2 cfg t0 t1 d sz =
      fetchOk cfg (missState CacherState.start "mcp:tools") 0 d sz t1 := by
    unfold missHit2
    rw [h12]
  have hcache : (missHit2 cfg t0 t1 d sz).cache =
      [("mcp:tools", ⟨d, t1, t1 + cfg.ttlMs, sz⟩)] := by
    rw [hOk, h2]
    rfl
  have hhits : (missHit2 cfg t0 t1 d sz).hits = 0 := by
    rw [hOk, h2]
    rfl
  have hmisses : (missHit2 cfg t0 t1 d sz).misses = 1 := by
    rw [hOk, h2]
    rfl
  have hlog : (missHit2 cfg t0 t1 d sz).fetchLog.length = 1 := by
    rw [hOk, h2]
    rfl
  have h3 := getCachedStep_hit cfg (missHit2 cfg t0 t1 d sz) "mcp:tools" false t2
    ⟨d, t1, t1 + cfg.ttlMs, sz⟩ (by rw [hcache]; rfl) hfresh
  have h3' : missHit3 cfg t0 t1 t2 d sz =
      ({ missHit2 cfg t0 t1 d sz with hits := (missHit2 cfg t0 t1 d sz).hits + 1 },
        .hit d) := by
    unfold missHit3
    exact h3
  refine ⟨by rw [h1], by rw [h12]; rfl, by rw [h12]; rfl, by rw [h12]; rfl,
    by rw [h3'], ?_, ?_, ?_⟩
  · rw [h3']
    show (missHit2 cfg t0 t1 d sz).hits + 1 = 1
    rw [hhits]
  · rw [h3']
    show (missHit2 cfg t0 t1 d sz).misses = 1
    exact hmisses
  · rw [h3']
    show (missHit2 cfg t0 t1 d sz).fetchLog.length = 1
    exact hlog

theorem cacher_miss_then_hit_witness :
    (missHit1 c7cfg 0).2 = .started 0 ∧
    (missHit3 c7cfg 0 10 1000 42 2).2 = .hit 42 ∧
    (missHit3 c7cfg 0 10 1000 42 2).1.hits = 1 ∧
    (missHit3 c7cfg 0 10 1000 42 2).1.fetchLog.length = 1 := by
  have h := cacher_miss_then_hit c7cfg 42 2 0 10 1000 (by decide)
  exact ⟨h.1, h.2.2.2.2.1, h.2.2.2.2.2.1, h.2.2.2.2.2.2.2⟩

/-- Removing a key's timer removes it from the armed set. -/
theorem contains_filter_out (key : String) (l : List String) :
    (l.filter (fun k => !(k == key))).contains key = false := by
  induction l with
  | nil => rfl
  | cons x xs ih =>
    by_cases hx : x = key
    · subst hx
      simp [List.filter, ih]
    · have hx1 : (x == key) = false := by simpa using hx
      have hx2 : (key == x) = false := by simpa using (Ne.symm hx)
      have hfc : List.filter (fun k => !(k == key)) (x :: xs) =
          x :: List.filter (fun k => !(k == key)) xs := by
        simp [List.filter, hx1]
      rw [hfc]
      simp [List.contains_cons, ih]
      exact fun hkx => hx hkx.symm

/-- C10: invalidate(kind) removes the memory entry, cancels the key's
auto-refresh timer and deletes the persistent entry, but leaves the
pending-fetch table, the statistics and the in-flight fetches unchanged;
consequently a fetch for the key that was in flight when invalidate ran
still completes, writes a fresh cache entry for the key and fires the
update notification. -/
theorem cacher_invalidate_preserves_inflight (cfg : CacherConfig) (s : CacherState)
    (kind : CacheKind) (fid d sz now : Nat) (r : FetchRec)
    (hr : findFetch s fid = some r) (hkey : r.key = cacheKey kind) :
    (invalidateStep cfg s kind).pendingFetches = s.pendingFetches ∧
    (invalidateStep cfg s kind).hits = s.hits ∧
    (invalidateStep cfg s kind).misses = s.misses ∧
    (invalidateStep cfg s kind).inFlight = s.inFlight ∧
    (invalidateStep cfg s kind).cache.lookup (cacheKey kind) = none ∧
    (invalidateStep cfg s kind).refreshTimers.contains (cacheKey kind) = false ∧
    (cfg.hasStorage = true →
      (invalidateStep cfg s kind).storage.lookup (cacheKey kind) = none) ∧
    (fetchOk cfg (invalidateStep cfg s kind) fid d sz now).cache.lookup (cacheKey kind) =
      some ⟨d, now, now + cfg.ttlMs, sz⟩ ∧
    (fetchOk cfg (invalidateStep cfg s kind) fid d sz now).updates =
      (invalidateStep cfg s kind).updates ++ [cacheKey kind] := by
  have hpend : (invalidateStep cfg s kind).pendingFetches = s.pendingFetches := by
    unfold invalidateStep cancelRefresh
    split <;> rfl
  have hhits : (invalidateStep cfg s kind).hits = s.hits := by
    unfold invalidateStep cancelRefresh
    split <;> rfl
  have hmisses : (invalidateStep cfg s kind).misses = s.misses := by
    unfold invalidateStep cancelRefresh
    split <;> rfl
  have hinf : (invalidateStep cfg s kind).inFlight = s.inFlight := by
    unfold invalidateStep cancelRefresh
    split <;> rfl
  have hcache : (invalidateStep cfg s kind).cache = delKey (cacheKey kind) s.cache := by
    unfold invalidateStep cancelRefresh
    split <;> rfl
  have htimers : (invalidateStep cfg s kind).refreshTimers =
      s.refreshTimers.filter (fun k => !(k == cacheKey kind)) := by
    unfold invalidateStep cancelRefresh
    split <;> rfl
  have hfind2 : findFetch (invalidateStep cfg s kind) fid = some r := by
    unfold findFetch
    rw [hinf]
    exact hr
  have hfOk := fetchOk_some cfg (invalidateStep cfg s kind) fid d sz now r hfind2
  refine ⟨hpend, hhits, hmisses, hinf, ?_, ?_, ?_, ?_, ?_⟩
  · rw [hcache]
    exact lookup_delKey_self _ _
  · rw [htimers]
    exact contains_filter_out _ _
  · intro hst
    have hstor : (invalidateStep cfg s kind).storage =
        delKey (cacheKey kind) s.storage := by
      unfold invalidateStep cancelRefresh
      rw [hst]
      rfl
    rw [hstor]
    exact lookup_delKey_self _ _
  · rw [hfOk]
    show List.lookup (cacheKey kind)
      (setKey r.key ⟨d, now, now + cfg.ttlMs, sz⟩ (invalidateStep cfg s kind).cache) = _
    rw [hkey]
    exact lookup_setKey_self _ _ _
  · rw [hfOk]
    show (if (keyKind r.key).isSome then
        (invalidateStep cfg s kind).updates ++ [r.key]
      else (invalidateStep cfg s kind).updates) = _
    rw [hkey]
    have hkk : (keyKind (cacheKey kind)).isSome = true := by
      cases kind <;> rfl
    rw [if_pos hkk]

/-- A cacher state with an entry, an armed timer, stats and one in-flight
foreground fetch for mcp:tools. -/
def invState : CacherState :=
  { cache := [("mcp:tools", ⟨9, 0, 100, 1⟩)],
    pendingFetches := [("mcp:tools", 5)],
    refreshTimers := ["mcp:tools"],
    hits := 2, misses := 3,
    inFlight := [⟨5, "mcp:tools", true⟩],
    fetchLog := [⟨5, "mcp:tools", true⟩],
    nextFid := 6,
    storage := [("mcp:tools", ⟨9, 0, 100, 1⟩)],
    updates := [] }

/-- The invalidate-scenario configuration, with a storage adapter. -/
def invCfg : CacherConfig := { ttlMs := 50, hasStorage := true }

theorem cacher_invalidate_preserves_inflight_witness :
    (invalidateStep invCfg invState .tools).pendingFetches = [("mcp:tools", 5)] ∧
    (invalidateStep invCfg invState .tools).cache.lookup "mcp:tools" = none ∧
    (fetchOk invCfg (invalidateStep invCfg invState .tools) 5 7 1 200).cache.lookup
      "mcp:tools" = some ⟨7, 200, 250, 1⟩ := by
  have h := cacher_invalidate_preserves_inflight invCfg invState .tools 5 7 1 200
    ⟨5, "mcp:tools", true⟩ rfl rfl
  exact ⟨h.1, h.2.2.2.2.1, h.2.2.2.2.2.2.2.1⟩

/-! ## Connection pool (McpConnectionPool, profiler.ts) -/

/-- PooledConnection: the pool's wrapper around one live connection.  The
connection itself is abstracted to its id. -/
structure PConn where
  id : Nat
  url : String
  createdAt : Nat
  lastUsedAt : Nat
  useCount : Nat
  isHealthy : Bool
deriving Repr, DecidableEq

/-- QueuedRequest: a caller blocked in waitForConnection. -/
structure WaitReq where
  rid : Nat
  url : String
  timestamp : Nat
deriving Repr, DecidableEq

/-- PoolOptions with the constructor's defaults (timer intervals and the
acquire timeout do not matter for the state transitions themselves). -/
structure PoolConfig where
  minConnections : Nat := 0
  maxConnections : Nat := 10
  maxTotalConnections : Nat := 50
  maxConnectionAgeMs : Nat := 300000
  validateOnAcquire : Bool := true
deriving Repr

/-- Where a pending factory call will put its connection. -/
inductive CreateDest where
  /-- tryCreateConnection: handed to the acquirer and registered active -/
  | toActive
  /-- warmup / health-check top-up: pushed onto the url's idle list -/
  | toIdle
deriving Repr, DecidableEq

/-- One factory call in flight. -/
structure Creating where
  dest : CreateDest
  url : String
deriving Repr, DecidableEq

/-- McpConnectionPool state.  The per-url idle arrays (`pools` map) are
flattened into one list; each connection carries its url, and per-url order
(shift takes the first matching, release pushes at the end) is preserved,
which is all the pool's logic observes.  `validating` holds connections that
getIdleConnection has shifted out of the idle list and is pinging
(validateOnAcquire) — synchronously removed, not yet active.  `creating`
holds factory calls whose await has not resolved.  Fresh connection ids are
drawn from `nextId`, waiting-request ids from `nextRid`. -/
structure PoolState where
  idle : List PConn
  active : List PConn
  validating : List PConn
  creating : List Creating
  waiting : List WaitReq
  nextId : Nat
  nextRid : Nat
deriving Repr, DecidableEq

def PoolState.start : PoolState := ⟨[], [], [], [], [], 0, 0⟩

/-- Remove the first element satisfying `p`, returning it and the remainder
(the effect of Array#shift / findIndex-plus-splice on the matching entry). -/
def extractP {α : Type} (p : α → Bool) : List α → Option (α × List α)
  | [] => none
  | x :: xs =>
    if p x then some (x, xs)
    else match extractP p xs with
      | some (y, ys) => some (y, x :: ys)
      | none => none

/-- The idle list of one url (the url's pool array). -/
def idleFor (s : PoolState) (url : String) : List PConn :=
  s.idle.filter (fun c => c.url == url)

/-- `pool.length + actives for the url`, as tryCreateConnection counts it
(connections being validated or created are not counted). -/
def urlCount (s : PoolState) (url : String) : Nat :=
  (idleFor s url).length + (s.active.filter (fun c => c.url == url)).length

/-- getTotalConnectionCount(): actives plus all idle. -/
def totalCount (s : PoolState) : Nat :=
  s.active.length + s.idle.length

/-- What release() did with the connection. -/
inductive ReleaseResult where
  /-- unknown connection: closed defensively, never pooled -/
  | closedUntracked
  /-- handed directly to waiting request `rid` (its timeout is cleared and
  its promise resolves with the connection) -/
  | handedTo (rid : Nat) (c : PConn)
  /-- pushed back onto its url's idle list -/
  | returnedToIdle (c : PConn)
  /-- unhealthy: destroyed instead of pooled -/
  | destroyedUnhealthy (c : PConn)
deriving Repr, DecidableEq

/-- release(connection): if the id is not in the active registry the
connection is closed; otherwise it is deregistered, and either handed to the
first (oldest) waiting request for its url — re-registered active, timeout
cleared, promise resolved — or, with no waiter, pushed back to idle when
healthy and destroyed when not. -/
def releaseFn (s : PoolState) (connId : Nat) (now : Nat) : PoolState × ReleaseResult :=
  match extractP (fun c => c.id == connId) s.active with
  | none => (s, .closedUntracked)
  | some (pooled, restActive) =>
    match extractP (fun r => r.url == pooled.url) s.waiting with
    | some (w, restWaiting) =>
      ({ s with
          active := { pooled with lastUsedAt := now, useCount := pooled.useCount + 1 } :: restActive,
          waiting := restWaiting },
        .handedTo w.rid { pooled with lastUsedAt := now, useCount := pooled.useCount + 1 })
    | none =>
      if pooled.isHealthy then
        ({ s with active := restActive,
                  idle := s.idle ++ [{ pooled with lastUsedAt := now }] },
          .returnedToIdle { pooled with lastUsedAt := now })
      else
        ({ s with active := restActive },
          .destroyedUnhealthy { pooled with lastUsedAt := now })

/-- The fresh connection createConnection builds at factory-resolution time
(useCount starts at 1; the id stands for the McpConnection identity). -/
def freshConn (id : Nat) (url : String) (now : Nat) : PConn :=
  ⟨id, url, now, now, 1, true⟩

/-- The effect of one pending factory call resolving: a toActive creation is
registered in the active map (tryCreateConnection's tail), a toIdle creation
is pushed onto its url's idle list (warmup / health top-up). -/
def applyCreateOk (s : PoolState) (now : Nat) (pre : List Creating) (ent : Creating)
    (post : List Creating) : PoolState :=
  let c := freshConn s.nextId ent.url now
  let s1 := { s with creating := pre ++ post, nextId := s.nextId + 1 }
  match ent.dest with
  | .toActive => { s1 with active := c :: s1.active }
  | .toIdle => { s1 with idle := s1.idle ++ [c] }

/-- One atomic transition of the pool: each constructor is one synchronous
region of a pool method or background loop. -/
inductive PStep (cfg : PoolConfig) : PoolState → PoolState → Prop
  /-- getIdleConnection: shift the url's first idle connection; it is over
  max age, so it is destroyed and the loop continues -/
  | shiftExpired (s : PoolState) (url : String) (now : Nat) (c : PConn)
      (rest : List PConn) :
      extractP (fun x => x.url == url) s.idle = some (c, rest) →
      cfg.maxConnectionAgeMs < now - c.createdAt →
      PStep cfg s { s with idle := rest }
  /-- getIdleConnection with validateOnAcquire: shift the url's first idle
  connection and enter the ping await -/
  | shiftValidate (s : PoolState) (url : String) (now : Nat) (c : PConn)
      (rest : List PConn) :
      cfg.validateOnAcquire = true →
      extractP (fun x => x.url == url) s.idle = some (c, rest) →
      ¬ cfg.maxConnectionAgeMs < now - c.createdAt →
      PStep cfg s { s with idle := rest, validating := c :: s.validating }
  /-- getIdleConnection without validation: the shifted connection is
  registered active and returned to the acquirer -/
  | shiftDirect (s : PoolState) (url : String) (now : Nat) (c : PConn)
      (rest : List PConn) :
      cfg.validateOnAcquire = false →
      extractP (fun x => x.url == url) s.idle = some (c, rest) →
      ¬ cfg.maxConnectionAgeMs < now - c.createdAt →
      PStep cfg s { s with
        idle := rest,
        active := { c with useCount := c.useCount + 1, lastUsedAt := now } :: s.active }
  /-- the ping resolves healthy: the connection is registered active and
  returned to the acquirer -/
  | validateOk (s : PoolState) (now cid : Nat) (c : PConn) (rest : List PConn) :
      extractP (fun x => x.id == cid) s.validating = some (c, rest) →
      PStep cfg s { s with
        validating := rest,
        active := { c with useCount := c.useCount + 1, lastUsedAt := now } :: s.active }
  /-- the ping fails or returns false: the connection is destroyed and the
  acquirer's loop continues -/
  | validateFail (s : PoolState) (cid : Nat) (c : PConn) (rest : List PConn) :
      extractP (fun x => x.id == cid) s.validating = some (c, rest) →
      PStep cfg s { s with validating := rest }
  /-- tryCreateConnection passes both limit checks and calls the factory -/
  | createStart (s : PoolState) (url : String) :
      urlCount s url < cfg.maxConnections →
      totalCount s < cfg.maxTotalConnections →
      PStep cfg s { s with creating := s.creating ++ [⟨.toActive, url⟩] }
  /-- warmup (or the health-check top-up): `minConnections - pool.length`
  factory calls are started for the url, with no limit checks and counting
  only the idle list -/
  | topUpStart (s : PoolState) (url : String) :
      PStep cfg s { s with
        creating := s.creating ++
          List.replicate (cfg.minConnections - (idleFor s url).length) ⟨.toIdle, url⟩ }
  /-- a pending factory call resolves -/
  | createOk (s : PoolState) (now : Nat) (pre : List Creating) (ent : Creating)
      (post : List Creating) :
      s.creating = pre ++ ent :: post →
      PStep cfg s (applyCreateOk s now pre ent post)
  /-- a pending factory call rejects -/
  | createFail (s : PoolState) (pre : List Creating) (ent : Creating)
      (post : List Creating) :
      s.creating = pre ++ ent :: post →
      PStep cfg s { s with creating := pre ++ post }
  /-- waitForConnection: the acquirer found no idle connection and creation
  was denied, so it is queued -/
  | enqueueWait (s : PoolState) (url : String) (now : Nat) :
      PStep cfg s { s with
        waiting := s.waiting ++ [⟨s.nextRid, url, now⟩],
        nextRid := s.nextRid + 1 }
  /-- a waiting request's acquire deadline fires: it is removed and its
  promise rejects with a timeout error -/
  | waitTimeout (s : PoolState) (rid : Nat) (w : WaitReq) (rest : List WaitReq) :
      extractP (fun r => r.rid == rid) s.waiting = some (w, rest) →
      PStep cfg s { s with waiting := rest }
  /-- release(connection) -/
  | releaseConn (s : PoolState) (connId now : Nat) :
      PStep cfg s (releaseFn s connId now).1
  /-- the health-check loop destroys an unhealthy idle connection, or the
  idle loop evicts one unused past the idle timeout -/
  | evictIdle (s : PoolState) (cid : Nat) (c : PConn) (rest : List PConn) :
      extractP (fun x => x.id == cid) s.idle = some (c, rest) →
      PStep cfg s { s with idle := rest }
  /-- shutdown(): waiting requests all rejected, every tracked connection
  closed, both tables cleared -/
  | shutdownPool (s : PoolState) :
      PStep cfg s { s with idle := [], active := [], waiting := [] }

/-- Pool states reachable from a fresh pool. -/
def PReach (cfg : PoolConfig) (s : PoolState) : Prop :=
  Relation.ReflTransGen (PStep cfg) PoolState.start s

/-- Ids of every connection the pool knows about (idle, being validated, or
active). -/
def allIds (s : PoolState) : List Nat :=
  (s.idle ++ s.validating ++ s.active).map PConn.id

/-- Inductive invariant: tracked connection ids are pairwise distinct and
below the fresh-id counter. -/
def PInv (s : PoolState) : Prop :=
  (allIds s).Nodup ∧ ∀ i ∈ allIds s, i < s.nextId

theorem extractP_eq_append {α : Type} (p : α → Bool) :
    ∀ (l : List α) (a : α) (rest : List α), extractP p l = some (a, rest) →
      ∃ l1 l2, l = l1 ++ a :: l2 ∧ rest = l1 ++ l2 ∧
        (∀ x ∈ l1, p x = false) ∧ p a = true := by
  intro l
  induction l with
  | nil =>
    intro a rest h
    simp [extractP] at h
  | cons x xs ih =>
    intro a rest h
    unfold extractP at h
    by_cases hp : p x
    · rw [if_pos hp] at h
      injection h with h1
      injection h1 with ha hrest
      subst ha
      subst hrest
      exact ⟨[], xs, by simp, by simp, by simp, hp⟩
    · rw [if_neg hp] at h
      rcases he : extractP p xs with _ | ⟨y, ys⟩
      · rw [he] at h
        simp at h
      · rw [he] at h
        injection h with h1
        injection h1 with ha hrest
        subst ha
        subst hrest
        obtain ⟨l1, l2, h1, h2, h3, h4⟩ := ih y ys he
        refine ⟨x :: l1, l2, ?_, ?_, ?_, h4⟩
        · rw [List.cons_append, ← h1]
        · rw [List.cons_append, ← h2]
        · intro z hz
          rcases List.mem_cons.mp hz with hz1 | hz2
          · rw [hz1]
            exact Bool.eq_false_iff.mpr hp
          · exact h3 z hz2

theorem extractP_perm {α : Type} (p : α → Bool) (l : List α) (a : α) (rest : List α)
    (h : extractP p l = some (a, rest)) : l.Perm (a :: rest) := by
  obtain ⟨l1, l2, h1, h2, _, _⟩ := extractP_eq_append p l a rest h
  subst h1
  subst h2
  exact List.perm_middle

theorem extractP_coe {α : Type} (p : α → Bool) (l : List α) (a : α) (rest : List α)
    (h : extractP p l = some (a, rest)) :
    (l : Multiset α) = a ::ₘ (rest : Multiset α) := by
  rw [Multiset.cons_coe]
  exact Multiset.coe_eq_coe.mpr (extractP_perm p l a rest h)

theorem extractP_pred {α : Type} (p : α → Bool) (l : List α) (a : α) (rest : List α)
    (h : extractP p l = some (a, rest)) : p a = true :=
  (extractP_eq_append p l a rest h).choose_spec.choose_spec.2.2.2

theorem extractP_none {α : Type} (p : α → Bool) :
    ∀ l : List α, extractP p l = none → ∀ x ∈ l, p x = false := by
  intro l
  induction l with
  | nil => intro _ x hx; simp at hx
  | cons y ys ih =>
    intro h x hx
    unfold extractP at h
    by_cases hp : p y
    · rw [if_pos hp] at h
      simp at h
    · rw [if_neg hp] at h
      rcases he : extractP p ys with _ | ⟨z, zs⟩
      · rcases List.mem_cons.mp hx with hx1 | hx2
        · rw [hx1]
          exact Bool.eq_false_iff.mpr hp
        · exact ih he x hx2
      · rw [he] at h
        simp at h

/-- The multiset of tracked connection ids. -/
def idsM (s : PoolState) : Multiset Nat :=
  Multiset.map PConn.id ↑s.idle + Multiset.map PConn.id ↑s.validating +
    Multiset.map PConn.id ↑s.active

theorem idsM_coe (s : PoolState) : idsM s = ((allIds s : List Nat) : Multiset Nat) := by
  simp [idsM, allIds]

/-- Transitions whose tracked-id multiset shrinks (or is rearranged) and
whose id counter does not decrease preserve the invariant. -/
theorem pinv_le (s s' : PoolState) (hle : idsM s' ≤ idsM s)
    (hn : s.nextId ≤ s'.nextId) (h : PInv s) : PInv s' := by
  obtain ⟨hnd, hb⟩ := h
  constructor
  · have h1 : Multiset.Nodup (idsM s') :=
      Multiset.nodup_of_le hle (by rw [idsM_coe]; exact Multiset.coe_nodup.mpr hnd)
    rw [idsM_coe] at h1
    exact Multiset.coe_nodup.mp h1
  · intro i hi
    have hi' : i ∈ idsM s' := by
      rw [idsM_coe]
      exact Multiset.mem_coe.mpr hi
    have hi2 := Multiset.mem_of_le hle hi'
    rw [idsM_coe] at hi2
    exact lt_of_lt_of_le (hb i (Multiset.mem_coe.mp hi2)) hn

/-- Registering one fresh connection (id = nextId, counter bumped) preserves
the invariant. -/
theorem pinv_fresh (s s' : PoolState) (heq : idsM s' = s.nextId ::ₘ idsM s)
    (hn : s'.nextId = s.nextId + 1) (h : PInv s) : PInv s' := by
  obtain ⟨hnd, hb⟩ := h
  have hndM : Multiset.Nodup (idsM s) := by
    rw [idsM_coe]
    exact Multiset.coe_nodup.mpr hnd
  have hnotmem : s.nextId ∉ idsM s := by
    rw [idsM_coe]
    intro hmem
    exact absurd (hb _ (Multiset.mem_coe.mp hmem)) (lt_irrefl _)
  constructor
  · have h1 : Multiset.Nodup (idsM s') := by
      rw [heq]
      exact Multiset.Nodup.cons hnotmem hndM
    rw [idsM_coe] at h1
    exact Multiset.coe_nodup.mp h1
  · intro i hi
    have hi' : i ∈ idsM s' := by
      rw [idsM_coe]
      exact Multiset.mem_coe.mpr hi
    rw [heq] at hi'
    rcases Multiset.mem_cons.mp hi' with h1 | h2
    · omega
    · rw [idsM_coe] at h2
      have := hb i (Multiset.mem_coe.mp h2)
      omega

/-- Every pool transition preserves the invariant. -/
theorem pinv_step (cfg : PoolConfig) (s s' : PoolState) (hstep : PStep cfg s s')
    (h : PInv s) : PInv s' := by
  cases hstep with
  | shiftExpired url now c rest hex hage =>
    refine pinv_le s _ ?_ (le_refl _) h
    show Multiset.map PConn.id ↑rest + Multiset.map PConn.id ↑s.validating +
        Multiset.map PConn.id ↑s.active ≤ idsM s
    unfold idsM
    rw [extractP_coe _ _ _ _ hex, Multiset.map_cons]
    exact add_le_add_right (add_le_add_right (Multiset.le_cons_self _ _) _) _
  | shiftValidate url now c rest hval hex hage =>
    refine pinv_le s _ (le_of_eq ?_) (le_refl _) h
    show Multiset.map PConn.id ↑rest + Multiset.map PConn.id ↑(c :: s.validating) +
        Multiset.map PConn.id ↑s.active = idsM s
    unfold idsM
    rw [extractP_coe _ _ _ _ hex, ← Multiset.cons_coe, Multiset.map_cons,
      Multiset.map_cons]
    rw [← Multiset.singleton_add, ← Multiset.singleton_add]
    abel
  | shiftDirect url now c rest hval hex hage =>
    refine pinv_le s _ (le_of_eq ?_) (le_refl _) h
    show Multiset.map PConn.id ↑rest + Multiset.map PConn.id ↑s.validating +
        Multiset.map PConn.id
          ↑({ c with useCount := c.useCount + 1, lastUsedAt := now } :: s.active) =
        idsM s
    unfold idsM
    rw [extractP_coe _ _ _ _ hex, ← Multiset.cons_coe, Multiset.map_cons,
      Multiset.map_cons]
    have hcid : ({ c with useCount := c.useCount + 1, lastUsedAt := now } : PConn).id =
        c.id := rfl
    rw [hcid]
    rw [← Multiset.singleton_add, ← Multiset.singleton_add]
    abel
  | validateOk now cid c rest hex =>
    refine pinv_le s _ (le_of_eq ?_) (le_refl _) h
    show Multiset.map PConn.id ↑s.idle + Multiset.map PConn.id ↑rest +
        Multiset.map PConn.id
          ↑({ c with useCount := c.useCount + 1, lastUsedAt := now } :: s.active) =
        idsM s
    unfold idsM
    rw [extractP_coe _ _ _ _ hex, ← Multiset.cons_coe, Multiset.map_cons,
      Multiset.map_cons]
    have hcid : ({ c with useCount := c.useCount + 1, lastUsedAt := now } : PConn).id =
        c.id := rfl
    rw [hcid]
    rw [← Multiset.singleton_add, ← Multiset.singleton_add]
    abel
  | validateFail cid c rest hex =>
    refine pinv_le s _ ?_ (le_refl _) h
    show Multiset.map PConn.id ↑s.idle + Multiset.map PConn.id ↑rest +
        Multiset.map PConn.id ↑s.active ≤ idsM s
    unfold idsM
    rw [extractP_coe _ _ _ _ hex, Multiset.map_cons]
    exact add_le_add_right (add_le_add_left (Multiset.le_cons_self _ _) _) _
  | createStart url h1 h2 =>
    exact pinv_le s _ (le_of_eq rfl) (le_refl _) h
  | topUpStart url =>
    exact pinv_le s _ (le_of_eq rfl) (le_refl _) h
  | createOk now pre ent post heq =>
    rcases ent with ⟨dest, url⟩
    cases dest with
    | toActive =>
      refine pinv_fresh s _ ?_ rfl h
      show Multiset.map PConn.id ↑s.idle + Multiset.map PConn.id ↑s.validating +
          Multiset.map PConn.id ↑(freshConn s.nextId url now :: s.active) =
          s.nextId ::ₘ idsM s
      rw [← Multiset.cons_coe, Multiset.map_cons]
      have hfid : (freshConn s.nextId url now).id = s.nextId := rfl
      rw [hfid]
      unfold idsM
      rw [← Multiset.singleton_add, ← Multiset.singleton_add]
      abel
    | toIdle =>
      refine pinv_fresh s _ ?_ rfl h
      show Multiset.map PConn.id ↑(s.idle ++ [freshConn s.nextId url now]) +
          Multiset.map PConn.id ↑s.validating + Multiset.map PConn.id ↑s.active =
          s.nextId ::ₘ idsM s
      rw [← Multiset.coe_add, Multiset.map_add]
      have hfid : Multiset.map PConn.id ↑[freshConn s.nextId url now] =
          {s.nextId} := rfl
      rw [hfid]
      unfold idsM
      rw [← Multiset.singleton_add]
      abel
  | createFail pre ent post heq =>
    exact pinv_le s _ (le_of_eq rfl) (le_refl _) h
  | enqueueWait url now =>
    exact pinv_le s _ (le_of_eq rfl) (le_refl _) h
  | waitTimeout rid w rest hex =>
    exact pinv_le s _ (le_of_eq rfl) (le_refl _) h
  | releaseConn connId now =>
    rcases hex : extractP (fun c => c.id == connId) s.active with _ | ⟨pooled, restA⟩
    · simp only [releaseFn, hex]
      exact h
    · rcases hw : extractP (fun r => r.url == pooled.url) s.waiting with _ | ⟨w, restW⟩
      · simp only [releaseFn, hex, hw]
        by_cases hh : pooled.isHealthy
        · rw [if_pos hh]
          refine pinv_le s _ (le_of_eq ?_) (le_refl _) h
          show Multiset.map PConn.id
              ((s.idle ++ [{ pooled with lastUsedAt := now }] : List PConn) :
                Multiset PConn) +
              Multiset.map PConn.id ↑s.validating + Multiset.map PConn.id ↑restA =
              idsM s
          rw [← Multiset.coe_add, Multiset.map_add]
          have hpid : Multiset.map PConn.id
              (([{ pooled with lastUsedAt := now }] : List PConn) : Multiset PConn) =
              {pooled.id} := rfl
          rw [hpid]
          unfold idsM
          rw [extractP_coe _ _ _ _ hex, Multiset.map_cons, ← Multiset.singleton_add]
          abel
        · rw [if_neg hh]
          refine pinv_le s _ ?_ (le_refl _) h
          show Multiset.map PConn.id ↑s.idle + Multiset.map PConn.id ↑s.validating +
              Multiset.map PConn.id ↑restA ≤ idsM s
          unfold idsM
          rw [extractP_coe _ _ _ _ hex, Multiset.map_cons]
          exact add_le_add_left (Multiset.le_cons_self _ _) _
      · simp only [releaseFn, hex, hw]
        refine pinv_le s _ (le_of_eq ?_) (le_refl _) h
        show Multiset.map PConn.id ↑s.idle + Multiset.map PConn.id ↑s.validating +
            Multiset.map PConn.id
              ↑({ pooled with lastUsedAt := now, useCount := pooled.useCount + 1 } ::
                restA) = idsM s
        rw [← Multiset.cons_coe, Multiset.map_cons]
        have hpid : ({ pooled with lastUsedAt := now, useCount := pooled.useCount + 1 } : PConn).id = pooled.id := rfl
        rw [hpid]
        unfold idsM
        rw [extractP_coe _ _ _ _ hex, Multiset.map_cons]
  | evictIdle cid c rest hex =>
    refine pinv_le s _ ?_ (le_refl _) h
    show Multiset.map PConn.id ↑rest + Multiset.map PConn.id ↑s.validating +
        Multiset.map PConn.id ↑s.active ≤ idsM s
    unfold idsM
    rw [extractP_coe _ _ _ _ hex, Multiset.map_cons]
    exact add_le_add_right (add_le_add_right (Multiset.le_cons_self _ _) _) _
  | shutdownPool =>
    refine pinv_le s _ ?_ (le_refl _) h
    show Multiset.map PConn.id ↑([] : List PConn) + Multiset.map PConn.id ↑s.validating +
        Multiset.map PConn.id ↑([] : List PConn) ≤ idsM s
    have hz : Multiset.map PConn.id ↑([] : List PConn) = 0 := rfl
    rw [hz, zero_add, add_zero]
    unfold idsM
    calc Multiset.map PConn.id ↑s.validating ≤
        Multiset.map PConn.id ↑s.validating + Multiset.map PConn.id ↑s.active :=
          le_self_add
      _ ≤ Multiset.map PConn.id ↑s.idle +
          (Multiset.map PConn.id ↑s.validating + Multiset.map PConn.id ↑s.active) :=
          le_add_self
      _ = Multiset.map PConn.id ↑s.idle + Multiset.map PConn.id ↑s.validating +
          Multiset.map PConn.id ↑s.active := by rw [add_assoc]

theorem pool_reach_pinv (cfg : PoolConfig) (s : PoolState) (h : PReach cfg s) :
    PInv s := by
  induction h with
  | refl => exact ⟨by simp [allIds, PoolState.start], by simp [allIds, PoolState.start]⟩
  | tail h1 h2 ih => exact pinv_step cfg _ _ h2 ih

/-- C4: in every reachable pool state a connection id is never simultaneously
on the idle list and in the active registry, and the active registry (the
record of connections lent to acquirers, including those handed over on
release and those registered after the validateOnAcquire ping) holds at most
one entry per id — no connection is held by two acquirers at once. -/
theorem pool_no_double_issue (cfg : PoolConfig) (s : PoolState) (h : PReach cfg s) :
    (∀ c1 ∈ s.idle, ∀ c2 ∈ s.active, c1.id ≠ c2.id) ∧
    (s.active.map PConn.id).Nodup := by
  obtain ⟨hnd, _⟩ := pool_reach_pinv cfg s h
  have hnd2 : (s.idle.map PConn.id ++
      (s.validating.map PConn.id ++ s.active.map PConn.id)).Nodup := by
    have heq : allIds s = s.idle.map PConn.id ++
        (s.validating.map PConn.id ++ s.active.map PConn.id) := by
      unfold allIds
      rw [List.map_append, List.map_append, List.append_assoc]
    rw [← heq]
    exact hnd
  rw [List.nodup_append] at hnd2
  obtain ⟨hndI, hndVA, hdisj⟩ := hnd2
  constructor
  · intro c1 h1 c2 h2 heq
    have hm1 : c1.id ∈ s.idle.map PConn.id := List.mem_map_of_mem _ h1
    have hm2 : c1.id ∈ s.validating.map PConn.id ++ s.active.map PConn.id := by
      rw [heq]
      exact List.mem_append_right _ (List.mem_map_of_mem _ h2)
    exact hdisj hm1 hm2
  · rw [List.nodup_append] at hndVA
    exact hndVA.2.1

/-- Default pool configuration. -/
def w4cfg : PoolConfig := {}

/-- One factory call started for url u. -/
def w4s1 : PoolState := { PoolState.start with creating := [⟨CreateDest.toActive, "u"⟩] }

/-- The factory resolves at t=5: one active connection. -/
def w4s2 : PoolState := applyCreateOk w4s1 5 [] ⟨CreateDest.toActive, "u"⟩ []

theorem pool_no_double_issue_witness :
    (∀ c1 ∈ w4s2.idle, ∀ c2 ∈ w4s2.active, c1.id ≠ c2.id) ∧
    (w4s2.active.map PConn.id).Nodup := by
  apply pool_no_double_issue w4cfg w4s2
  have h1 : PStep w4cfg PoolState.start w4s1 :=
    PStep.createStart PoolState.start "u" (by decide) (by decide)
  have h2 : PStep w4cfg w4s1 w4s2 :=
    PStep.createOk w4s1 5 [] ⟨CreateDest.toActive, "u"⟩ [] rfl
  exact Relation.ReflTransGen.tail (Relation.ReflTransGen.single h1) h2

/-- The pool-bound scenario configuration: two connections per url minimum
and maximum. -/
def bugCfg : PoolConfig := { minConnections := 2, maxConnections := 2 }

def bugS1 : PoolState := { PoolState.start with creating := [⟨CreateDest.toActive, "u"⟩] }

def bugS2 : PoolState := applyCreateOk bugS1 0 [] ⟨CreateDest.toActive, "u"⟩ []

def bugS3 : PoolState := { bugS2 with creating := [⟨CreateDest.toActive, "u"⟩] }

def bugS4 : PoolState := applyCreateOk bugS3 0 [] ⟨CreateDest.toActive, "u"⟩ []

def bugS5 : PoolState :=
  { bugS4 with creating := [⟨CreateDest.toIdle, "u"⟩, ⟨CreateDest.toIdle, "u"⟩] }

def bugS6 : PoolState :=
  applyCreateOk bugS5 0 [] ⟨CreateDest.toIdle, "u"⟩ [⟨CreateDest.toIdle, "u"⟩]

def bugS7 : PoolState := applyCreateOk bugS6 0 [] ⟨CreateDest.toIdle, "u"⟩ []

/-- C1 (refuting the pool-bound claim on the code): with minConnections = 2
and maxConnections = 2, acquiring two connections for url u (both active)
and then running warmup(["u"]) is a reachable behavior; warmup computes
needed = minConnections - pool.length from the idle list alone, ignoring
active connections and both caps, so it creates two more connections and the
reachable state bugS7 has idle+active = 4 > maxConnections = 2 for u. -/
theorem pool_bound_claim_false :
    PReach bugCfg bugS7 ∧ urlCount bugS7 "u" = 4 ∧ bugCfg.maxConnections = 2 ∧
    ¬ urlCount bugS7 "u" ≤ bugCfg.maxConnections := by
  refine ⟨?_, by decide, by decide, by decide⟩
  have h1 : PStep bugCfg PoolState.start bugS1 :=
    PStep.createStart PoolState.start "u" (by decide) (by decide)
  have h2 : PStep bugCfg bugS1 bugS2 :=
    PStep.createOk bugS1 0 [] ⟨CreateDest.toActive, "u"⟩ [] rfl
  have h3 : PStep bugCfg bugS2 bugS3 :=
    PStep.createStart bugS2 "u" (by decide) (by decide)
  have h4 : PStep bugCfg bugS3 bugS4 :=
    PStep.createOk bugS3 0 [] ⟨CreateDest.toActive, "u"⟩ [] rfl
  have h5 : PStep bugCfg bugS4 bugS5 := PStep.topUpStart bugS4 "u"
  have h6 : PStep bugCfg bugS5 bugS6 :=
    PStep.createOk bugS5 0 [] ⟨CreateDest.toIdle, "u"⟩ [⟨CreateDest.toIdle, "u"⟩] rfl
  have h7 : PStep bugCfg bugS6 bugS7 :=
    PStep.createOk bugS6 0 [] ⟨CreateDest.toIdle, "u"⟩ [] rfl
  exact Relation.ReflTransGen.tail
    (Relation.ReflTransGen.tail
      (Relation.ReflTransGen.tail
        (Relation.ReflTransGen.tail
          (Relation.ReflTransGen.tail
            (Relation.ReflTransGen.tail (Relation.ReflTransGen.single h1) h2) h3)
          h4) h5) h6) h7

/-- C8: releasing a tracked active connection while at least one waiting
request for its url exists hands it to the first matching — with the waiting
list ordered by enqueue time, the longest-waiting — request: that request is
removed from the queue (so its timeout can no longer fire) and resolved with
the connection, which stays registered active and is not placed on the idle
list.  Only with no waiting request for the url does a healthy connection
return to idle. -/
theorem pool_release_handoff (s : PoolState) (pooled : PConn) (restA : List PConn)
    (connId now : Nat)
    (hex : extractP (fun c => c.id == connId) s.active = some (pooled, restA))
    (hsorted : List.Pairwise (fun a b => a.timestamp ≤ b.timestamp) s.waiting) :
    (∀ w restW, extractP (fun r => r.url == pooled.url) s.waiting = some (w, restW) →
      releaseFn s connId now =
        ({ s with
            active := { pooled with lastUsedAt := now, useCount := pooled.useCount + 1 } :: restA,
            waiting := restW },
          .handedTo w.rid { pooled with lastUsedAt := now, useCount := pooled.useCount + 1 }) ∧
      (releaseFn s connId now).1.idle = s.idle ∧
      w ∈ s.waiting ∧ (w.url == pooled.url) = true ∧
      (∀ w' ∈ s.waiting, (w'.url == pooled.url) = true → w.timestamp ≤ w'.timestamp)) ∧
    (extractP (fun r => r.url == pooled.url) s.waiting = none →
      (∀ rid c, (releaseFn s connId now).2 ≠ .handedTo rid c) ∧
      (pooled.isHealthy = true →
        (releaseFn s connId now).1.idle = s.idle ++ [{ pooled with lastUsedAt := now }] ∧
        (releaseFn s connId now).1.waiting = s.waiting)) := by
  constructor
  · intro w restW hw
    refine ⟨?_, ?_, ?_,
      extractP_pred (fun r => r.url == pooled.url) s.waiting w restW hw, ?_⟩
    · simp only [releaseFn, hex, hw]
    · simp only [releaseFn, hex, hw]
    · obtain ⟨l1, l2, h1, _, _, _⟩ := extractP_eq_append _ _ _ _ hw
      rw [h1]
      exact List.mem_append_right l1 (List.mem_cons_self w l2)
    · intro w' hw' hurl
      obtain ⟨l1, l2, h1, h2, h3, h4⟩ := extractP_eq_append _ _ _ _ hw
      rw [h1] at hsorted hw'
      rcases List.mem_append.mp hw' with hin1 | hin2
      · rw [h3 w' hin1] at hurl
        exact absurd hurl (by simp)
      · rcases List.mem_cons.mp hin2 with heqw | hin3
        · rw [heqw]
        · have hp := (List.pairwise_append.mp hsorted).2.1
          exact (List.pairwise_cons.mp hp).1 w' hin3
  · intro hwnone
    constructor
    · intro rid c
      simp only [releaseFn, hex, hwnone]
      by_cases hh : pooled.isHealthy
      · rw [if_pos hh]
        simp
      · rw [if_neg hh]
        simp
    · intro hh
      simp only [releaseFn, hex, hwnone]
      rw [if_pos hh]
      exact ⟨rfl, rfl⟩

/-- A pool state with one active connection for url u and three waiting
requests enqueued at times 1, 2, 3 (the middle and last for u). -/
def w8state : PoolState :=
  { idle := [], active := [⟨1, "u", 0, 0, 1, true⟩], validating := [], creating := [],
    waiting := [⟨10, "v", 1⟩, ⟨11, "u", 2⟩, ⟨12, "u", 3⟩], nextId := 2, nextRid := 13 }

theorem pool_release_handoff_witness :
    releaseFn w8state 1 7 =
      ({ w8state with
          active := [⟨1, "u", 0, 7, 2, true⟩],
          waiting := [⟨10, "v", 1⟩, ⟨12, "u", 3⟩] },
        .handedTo 11 ⟨1, "u", 0, 7, 2, true⟩) ∧
    (releaseFn w8state 1 7).1.idle = [] := by
  have h := pool_release_handoff w8state ⟨1, "u", 0, 0, 1, true⟩ [] 1 7
    (by decide) (by decide)
  have h1 := h.1 ⟨11, "u", 2⟩ [⟨10, "v", 1⟩, ⟨12, "u", 3⟩] (by decide)
  exact ⟨h1.1, h1.2.1⟩

end McpToolkit
